import Mathlib

/-!
Shallow embedding of the product-resolution pipeline of `get-ozon.py`
(class `OzonAutomation`): price parsing, product extraction, delivery
filtering and cheapest-candidate selection, the add-to-cart strategy
cascade, the per-item run loop, the between-item re-navigation decision,
and the OCR text locator.  Prices are modelled as `WithTop ℚ` where `⊤`
plays the role of Python's `float('inf')` sentinel; fallible browser
interactions are modelled as `Except Unit` values.
-/

namespace GetOzon

/-- Model of Python's substring test `needle in hay` on strings. -/
def pyIn (needle hay : String) : Bool :=
  (List.range (hay.toList.length + 1)).any fun i =>
    needle.toList.isPrefixOf (hay.toList.drop i)

/-- Model of Python's `str.lower` for the alphabets this program uses:
ASCII letters and Cyrillic (А-Я plus Ё). -/
def charLower (c : Char) : Char :=
  if 'A' ≤ c ∧ c ≤ 'Z' then Char.ofNat (c.toNat + 32)
  else if 'А' ≤ c ∧ c ≤ 'Я' then Char.ofNat (c.toNat + 32)
  else if c = 'Ё' then 'ё'
  else c

/-- Lower-casing of a whole string (Python `str.lower`). -/
def pyLower (s : String) : String :=
  (s.toList.map charLower).asString

/-- Configuration constants of `Config` in `get-ozon.py` used by the
embedded pipeline. -/
def MAX_PRODUCTS_TO_CHECK : Nat := 5

/-- The `Config.DELIVERY_FILTERS` tuple: delivery keywords. -/
def DELIVERY_FILTERS : List String := ["сегодня", "завтра"]

/-- Model of Python's `str.split('.')` on the character list of a string:
splits at every period, keeping empty segments, and yields one segment
even for the empty string. -/
def splitDots : List Char → List (List Char)
  | [] => [[]]
  | c :: cs =>
    if c = '.' then [] :: splitDots cs
    else
      match splitDots cs with
      | [] => [[c]]
      | s :: rest => (c :: s) :: rest

/-- Digit-string value: folds ASCII digits into a natural number. -/
def natVal (cs : List Char) : Nat :=
  cs.foldl (fun a c => 10 * a + (c.toNat - 48)) 0

/-- Model of Python's `float(s)` restricted to the strings `extract_price`
feeds it (only ASCII digits and periods can remain after cleaning):
succeeds exactly when the string consists of digits and at most one
period and contains at least one digit; a failure models the
`ValueError` that `extract_price` catches. -/
def pyFloatE (cs : List Char) : Except Unit ℚ :=
  if (cs.all fun c => c.isDigit || c = '.') &&
     (cs.count '.' ≤ 1 : Bool) && (cs.any fun c => c.isDigit) then
    let intPart := cs.takeWhile fun c => c ≠ '.'
    let fracPart := (cs.dropWhile fun c => c ≠ '.').drop 1
    .ok (mkRat (natVal intPart * 10 ^ fracPart.length + natVal fracPart)
      (10 ^ fracPart.length))
  else .error ()

/-- Cleaning steps of `extract_price` (lines 277-278): strip every
character that is not a digit, comma or period, then replace commas by
periods. -/
def cleanedChars (s : String) : List Char :=
  (s.toList.filter fun c => c.isDigit || c = ',' || c = '.').map
    fun c => if c = ',' then '.' else c

/-- Thousands-separator step of `extract_price` (lines 281-283): split on
periods and, when more than two parts result, rejoin all but the last
part without separators, keeping a single period before the last part. -/
def collapseDots (l : List Char) : List Char :=
  if 2 < (splitDots l).length then
    (splitDots l).dropLast.flatten ++ '.' :: (splitDots l).getLastD []
  else l

/-- Embedding of `OzonAutomation.extract_price` (lines 263-288): empty
input yields the infinity sentinel; otherwise the text is cleaned, the
thousands-separator collapse is applied, and the remainder is parsed as
a float, a parse failure yielding the sentinel. -/
def extract_price (price_text : String) : WithTop ℚ :=
  if price_text.isEmpty then ⊤
  else
    match pyFloatE (collapseDots (cleanedChars price_text)) with
    | .ok q => (q : ℚ)
    | .error _ => ⊤

/-- Written from the spec's words for the thousands-separator step:
remove every period other than the last one, keeping the last as the
decimal point.  A period is dropped exactly when another period occurs
after it. -/
def specRemove : List Char → List Char
  | [] => []
  | c :: cs => if c = '.' ∧ '.' ∈ cs then specRemove cs else c :: specRemove cs

/-- Price parser as described by the specification sentences, for
comparison with `extract_price`: strip non-digit/comma/period characters,
normalize commas to periods, remove all but the last period when more
than one period remains, then parse. -/
def extract_price_spec (price_text : String) : WithTop ℚ :=
  if price_text.isEmpty then ⊤
  else
    let cleaned := cleanedChars price_text
    let cleaned := if 1 < cleaned.count '.' then specRemove cleaned else cleaned
    match pyFloatE cleaned with
    | .ok q => (q : ℚ)
    | .error _ => ⊤

theorem splitDots_ne_nil (l : List Char) : splitDots l ≠ [] := by
  cases l with
  | nil => simp [splitDots]
  | cons c cs =>
    simp only [splitDots]
    split
    · simp
    · split <;> simp

theorem length_splitDots (l : List Char) :
    (splitDots l).length = l.count '.' + 1 := by
  induction l with
  | nil => simp [splitDots]
  | cons c cs ih =>
    by_cases hc : c = '.'
    · subst hc
      simp [splitDots, List.count_cons, ih]
    · rcases hS : splitDots cs with _ | ⟨s, rest⟩
      · exact absurd hS (splitDots_ne_nil cs)
      · simp only [splitDots, if_neg hc, hS]
        have := ih
        rw [hS] at this
        simp only [List.length_cons] at this ⊢
        rw [List.count_cons, if_neg (by simp [hc])]
        omega

theorem splitDots_no_dot (l : List Char) (h : '.' ∉ l) : splitDots l = [l] := by
  induction l with
  | nil => rfl
  | cons c cs ih =>
    have hc : c ≠ '.' := fun hc => h (by simp [hc])
    have hcs : '.' ∉ cs := fun hm => h (by simp [hm])
    simp only [splitDots, if_neg hc, ih hcs]

theorem specRemove_no_dot (l : List Char) (h : '.' ∉ l) : specRemove l = l := by
  induction l with
  | nil => rfl
  | cons c cs ih =>
    have hc : c ≠ '.' := fun hc => h (by simp [hc])
    have hcs : '.' ∉ cs := fun hm => h (by simp [hm])
    have hcond : ¬(c = '.' ∧ '.' ∈ cs) := fun h2 => hc h2.1
    simp only [specRemove, if_neg hcond, ih hcs]

theorem specRemove_of_count_le_one (l : List Char) (h : l.count '.' ≤ 1) :
    specRemove l = l := by
  induction l with
  | nil => rfl
  | cons c cs ih =>
    by_cases hc : c = '.'
    · subst hc
      have hcount : cs.count '.' = 0 := by
        rw [List.count_cons] at h
        simp at h
        omega
      have hnm : '.' ∉ cs := by
        intro hm
        have := List.count_pos_iff.mpr hm
        omega
      simp [specRemove, hnm, specRemove_no_dot cs hnm]
    · have hcs : cs.count '.' ≤ 1 := by
        rw [List.count_cons, if_neg (by simp [hc])] at h
        omega
      have hcond : ¬(c = '.' ∧ '.' ∈ cs) := fun h2 => hc h2.1
      simp only [specRemove, if_neg hcond, ih hcs]

theorem getLastD_ne_nil {α : Type} {l : List α} (h : l ≠ []) (d d' : α) :
    l.getLastD d = l.getLastD d' := by
  rw [List.getLastD_eq_getLast?, List.getLastD_eq_getLast?]
  rcases hz : l.getLast? with _ | z
  · exact absurd (List.getLast?_eq_none_iff.mp hz) h
  · rfl

theorem splitDots_collapse (l : List Char) (h : '.' ∈ l) :
    (splitDots l).dropLast.flatten ++ '.' :: (splitDots l).getLastD [] = specRemove l := by
  induction l with
  | nil => simp at h
  | cons c cs ih =>
    by_cases hc : c = '.'
    · subst hc
      by_cases hcs : '.' ∈ cs
      · rcases hSe : splitDots cs with _ | ⟨s, rest⟩
        · exact absurd hSe (splitDots_ne_nil cs)
        · have hstep : splitDots ('.' :: cs) = [] :: s :: rest := by
            simp [splitDots, hSe]
          rw [hstep, List.dropLast_cons₂, List.flatten_cons, List.getLastD_cons,
            List.nil_append]
          have hrhs : specRemove ('.' :: cs) = specRemove cs := by
            rw [specRemove, if_pos ⟨rfl, hcs⟩]
          rw [hrhs, ← ih hcs, hSe]
      · have hstep : splitDots ('.' :: cs) = [[], cs] := by
          simp [splitDots, splitDots_no_dot cs hcs]
        rw [hstep]
        have hrhs : specRemove ('.' :: cs) = '.' :: cs := by
          rw [specRemove, if_neg (fun h2 => hcs h2.2), specRemove_no_dot cs hcs]
        rw [hrhs]
        simp [List.getLastD_cons]
    · have hcs : '.' ∈ cs := by
        rcases List.mem_cons.mp h with h1 | h1
        · exact absurd h1.symm hc
        · exact h1
      rcases hSe : splitDots cs with _ | ⟨s, rest⟩
      · exact absurd hSe (splitDots_ne_nil cs)
      · have hrest : rest ≠ [] := by
          intro hr
          have hl := length_splitDots cs
          rw [hSe, hr] at hl
          have hpos : 0 < cs.count '.' := List.count_pos_iff.mpr hcs
          simp at hl
          omega
        rcases rest with _ | ⟨r1, rest'⟩
        · exact absurd rfl hrest
        · have hstep : splitDots (c :: cs) = (c :: s) :: r1 :: rest' := by
            simp [splitDots, if_neg hc, hSe]
          rw [hstep, List.dropLast_cons₂, List.flatten_cons, List.getLastD_cons]
          have hrhs : specRemove (c :: cs) = c :: specRemove cs := by
            rw [specRemove, if_neg (fun h2 => hc h2.1)]
          rw [hrhs, ← ih hcs, hSe, List.dropLast_cons₂, List.flatten_cons]
          simp only [List.getLastD_cons, List.cons_append, List.append_assoc,
            List.cons.injEq, true_and]

theorem collapseDots_eq_specRemove (l : List Char) :
    collapseDots l = (if 1 < l.count '.' then specRemove l else l) := by
  by_cases hc : 1 < l.count '.'
  · have h2 : 2 < (splitDots l).length := by rw [length_splitDots]; omega
    rw [collapseDots, if_pos h2, if_pos hc]
    exact splitDots_collapse l (List.count_pos_iff.mp (by omega))
  · have h2 : ¬ 2 < (splitDots l).length := by rw [length_splitDots]; omega
    rw [collapseDots, if_neg h2, if_neg hc]

/-- C4: the price parser strips every character that is not a digit,
comma or period, normalizes commas to periods, removes all but the last
period when more than one remains, and parses the remainder, so that it
agrees with the parser written from the spec's words on every input, and
in particular `parse("199 ₽") = 199.0` and
`parse("1 234,50 ₽") = 1234.50`. -/
theorem C4_price_parsing :
    (∀ s : String, extract_price s = extract_price_spec s) ∧
    extract_price "199 ₽" = ((199 : ℚ) : WithTop ℚ) ∧
    extract_price "1 234,50 ₽" = (((2469 : ℚ) / 2 : ℚ) : WithTop ℚ) := by
  have h2 : ((2469 : ℚ) / 2 : ℚ) = (mkRat 123450 100 : ℚ) := by
    rw [Rat.mkRat_eq_div]; norm_num
  refine ⟨fun s => ?_, by decide, by rw [h2]; decide⟩
  rw [extract_price, extract_price_spec]
  by_cases hs : s.isEmpty
  · rw [if_pos hs, if_pos hs]
  · rw [if_neg hs, if_neg hs, collapseDots_eq_specRemove]

/-- C5: the price parser is a total function: it returns the infinity
sentinel on empty or unparseable input (such as `""` and `"junk"`),
otherwise a rational price, and the sentinel compares strictly larger
than every real price. -/
theorem C5_price_parser_total :
    extract_price "" = (⊤ : WithTop ℚ) ∧
    extract_price "junk" = (⊤ : WithTop ℚ) ∧
    (∀ s : String, extract_price s = ⊤ ∨ ∃ q : ℚ, extract_price s = (q : WithTop ℚ)) ∧
    (∀ q : ℚ, (q : WithTop ℚ) < ⊤) := by
  refine ⟨by decide, by decide, fun s => ?_, fun q => WithTop.coe_lt_top q⟩
  rcases h : extract_price s with _ | q
  · exact Or.inl rfl
  · exact Or.inr ⟨q, rfl⟩

/-- Data read from the product link of a result card (lines 329-339):
the text of the first `span` inside the link (if a span exists) and the
`href` attribute, each `none` when the corresponding lookup found
nothing; `text_content()`/`get_attribute()` results of `None` are
already collapsed to `""` by the `or ""` in the source. -/
structure LinkData where
  span_text : Option String
  href : Option String
  deriving DecidableEq

/-- Fields that one extraction pass reads from a result card
(lines 327-356): the product link data (when an `a[href*="/product/"]`
exists), the text of the first span containing a currency marker, and
the text of the first button. -/
structure FieldData where
  product_link : Option LinkData
  price_text : Option String
  button_text : Option String
  deriving DecidableEq

deriving instance DecidableEq for Except

/-- Model of one result card as the pipeline observes it.  `read_fields`
is the per-card field extraction of `parse_products` (lines 326-366): an
error models an exception thrown while reading this card's fields.  The
remaining fields are the `add_to_cart` interactions (lines 418-463):
`first_button` is step one, `card.locator('button').first` (`ok true` =
a visible button was found and the click went through; `ok false` = no
such visible button; `error` = an exception during that step);
`btnZavtra`/`btnSegodnya`/`btnVKorzinu`/`btnDobavit` are the four
labelled-button lookups of the alternative-selector loop, in source
order; `open_card` is the fallback click on the card itself plus the
page-load wait; `page_cart_button` is the product-page
`button:has-text("В корзину")` lookup and click. -/
structure Card where
  read_fields : Except Unit FieldData
  first_button : Except Unit Bool
  btnZavtra : Except Unit Bool
  btnSegodnya : Except Unit Bool
  btnVKorzinu : Except Unit Bool
  btnDobavit : Except Unit Bool
  open_card : Except Unit Unit
  page_cart_button : Except Unit Bool
  deriving DecidableEq

/-- The `Product` dataclass of `get-ozon.py` (lines 62-68). -/
structure Product where
  name : String
  price : WithTop ℚ
  delivery : String
  card_element : Card
  deriving DecidableEq

/-- Python `name.strip()[:80]` (line 340): drop leading and trailing
whitespace, then keep the first 80 characters. -/
def stripTake80 (s : String) : String :=
  ((((s.toList.dropWhile Char.isWhitespace).reverse.dropWhile
    Char.isWhitespace).reverse).take 80).asString

/-- Extraction of a name from a product URL (line 339):
`name.split('/product/')[1].split('/')[0].replace('-', ' ')`. -/
def productSegment (h : String) : String :=
  ((((h.splitOn "/product/").getD 1 "").splitOn "/").headD "").replace "-" " "

/-- Name extraction of `parse_products` (lines 327-340): prefer the span
text inside the product link; when that is empty fall back to the href,
rewritten through `productSegment` when it contains `/product/`; finally
strip and truncate to 80 characters.  Without a product link the name
stays empty. -/
def card_name (f : FieldData) : String :=
  match f.product_link with
  | none => ""
  | some link =>
    let name := match link.span_text with
      | some s => s
      | none => ""
    let name := if name = "" then
        let h := match link.href with
          | some s => s
          | none => ""
        if pyIn "/product/" h then productSegment h else h
      else name
    stripTake80 name

/-- Price extraction of `parse_products` (lines 342-347): the price stays
at the infinity sentinel unless a currency span exists, in which case its
text goes through `extract_price`. -/
def card_price (f : FieldData) : WithTop ℚ :=
  match f.price_text with
  | none => ⊤
  | some t => extract_price t

/-- Delivery extraction of `parse_products` (lines 349-356): the first
button's text, lower-cased, kept only when it mentions a delivery
keyword, otherwise the empty string. -/
def card_delivery (f : FieldData) : String :=
  match f.button_text with
  | none => ""
  | some t =>
    let lower := pyLower t
    if pyIn "сегодня" lower || pyIn "завтра" lower then lower else ""

/-- Body of the per-card loop of `parse_products` (lines 323-370) for
card index `i`: an exception while reading the fields skips the card;
a card whose price did not parse to a finite value is skipped; otherwise
a `Product` is built, with the positional placeholder name when no name
was extracted. -/
def parse_card (i : Nat) (c : Card) : Option Product :=
  match c.read_fields with
  | .error _ => none
  | .ok f =>
    let name := card_name f
    let price := card_price f
    if price < (⊤ : WithTop ℚ) then
      some { name := if name = "" then "Товар " ++ toString (i + 1) else name
             price := price
             delivery := card_delivery f
             card_element := c }
    else none

/-- Embedding of `OzonAutomation.parse_products` (lines 290-372): the
first `min(count, MAX_PRODUCTS_TO_CHECK)` cards are processed in order
and the successfully parsed ones collected. -/
def parse_products (cards : List Card) : List Product :=
  (List.range (min cards.length MAX_PRODUCTS_TO_CHECK)).filterMap
    fun i => (cards[i]?).bind (parse_card i)

/-- Embedding of `OzonAutomation.filter_by_delivery` (lines 374-390):
keep the products whose delivery text contains some configured delivery
keyword. -/
def filter_by_delivery (products : List Product) : List Product :=
  products.filter fun p => DELIVERY_FILTERS.any fun kw => pyIn kw p.delivery

/-- Embedding of `OzonAutomation.find_cheapest` (lines 392-404): Python's
`min(products, key=lambda p: p.price)` keeps the first element among
those of minimal price, and `None` is returned for an empty list. -/
def find_cheapest : List Product → Option Product
  | [] => none
  | p :: ps => some (ps.foldl (fun best q => if q.price < best.price then q else best) p)

/-- The candidate pool used by `run` (lines 546-552): the
delivery-filtered products, or all products when the filter leaves
nothing. -/
def selection_pool (products : List Product) : List Product :=
  if (filter_by_delivery products).isEmpty then products
  else filter_by_delivery products

/-- The selection step of `run` (lines 546-555): filter by delivery,
fall back to the full list when the filter is empty, then take the
cheapest. -/
def select (products : List Product) : Option Product :=
  find_cheapest (selection_pool products)

/-- The four labelled-button attempts of `add_to_cart` (lines 434-448),
in the order of `button_selectors`. -/
def labeled_attempts (c : Card) : List (Except Unit Bool) :=
  [c.btnZavtra, c.btnSegodnya, c.btnVKorzinu, c.btnDobavit]

/-- The alternative-selector loop of `add_to_cart` (lines 441-448): try
each labelled lookup in order, returning at the first successful click;
an exception propagates to the surrounding handler. -/
def try_labeled : List (Except Unit Bool) → Except Unit Bool
  | [] => .ok false
  | a :: rest =>
    match a with
    | .error e => .error e
    | .ok true => .ok true
    | .ok false => try_labeled rest

/-- The body of the `try` block of `add_to_cart` (lines 418-463): first
visible button in the card, then the labelled buttons, then the
navigate-into-product-page fallback; `ok true` at the first successful
click, `ok false` when every strategy ran out, `error` when any step
threw. -/
def commit_body (c : Card) : Except Unit Bool :=
  match c.first_button with
  | .error e => .error e
  | .ok true => .ok true
  | .ok false =>
    match try_labeled (labeled_attempts c) with
    | .error e => .error e
    | .ok true => .ok true
    | .ok false =>
      match c.open_card with
      | .error e => .error e
      | .ok _ =>
        match c.page_cart_button with
        | .error e => .error e
        | .ok true => .ok true
        | .ok false => .ok false

/-- Embedding of `OzonAutomation.add_to_cart` (lines 406-468): the whole
strategy cascade sits inside a single `try`; any exception is caught at
this level and the function returns `False` (lines 465-468). -/
def add_to_cart (c : Card) : Bool :=
  match commit_body c with
  | .ok b => b
  | .error _ => false

/-- Outcome of one iteration of the shopping-list loop of `run`
(lines 528-566), as reported by its prints. -/
inductive ItemOutcome where
  | noProducts
  | added
  | commitFailed
  | noSelection
  deriving DecidableEq

/-- Environment of one shopping-list item: the behaviour of
`search_product` (which either completes or throws) and of the
result-card location of `parse_products` (lines 300-321, which either
yields the located cards or throws). -/
structure ItemEnv where
  search : Except Unit Unit
  cards : Except Unit (List Card)

/-- One iteration of the shopping-list loop of `run` (lines 528-566):
search, parse, select, commit.  The loop body contains no exception
handler of its own, so any exception escapes as an `error`. -/
def process_item (env : ItemEnv) : Except Unit ItemOutcome :=
  match env.search with
  | .error e => .error e
  | .ok _ =>
    match env.cards with
    | .error e => .error e
    | .ok cs =>
      let products := parse_products cs
      if products.isEmpty then .ok .noProducts
      else
        match select products with
        | some p =>
          if add_to_cart p.card_element then .ok .added else .ok .commitFailed
        | none => .ok .noSelection

/-- The shopping-list loop of `run` (lines 528-570) at the level of item
outcomes: items are processed in order inside one `try` (lines 509-583),
and an exception raised by any item's cycle escapes the loop (the outer
handler re-raises it after cleanup), so no further item is processed. -/
def run_items : List ItemEnv → Except Unit (List ItemOutcome)
  | [] => .ok []
  | env :: rest =>
    match process_item env with
    | .error e => .error e
    | .ok o =>
      match run_items rest with
      | .error e => .error e
      | .ok os => .ok (o :: os)

/-- The re-navigation condition of `run` (line 569):
`shopping_list.index(item) < len(shopping_list) - 1`, where Python's
`list.index` returns the position of the first occurrence. -/
def renav_decision (l : List String) (item : String) : Bool :=
  decide (l.indexOf item < l.length - 1)

/-- Whether the driver re-navigates to the section root after each item
of a run in which every item's cycle completes without an exception.
`found` records, item by item, whether `parse_products` returned a
non-empty list for that item: when it did not, the `continue` at
line 541 skips the rest of the loop body including the re-navigation
block at lines 568-570, so no navigation happens and the line-569
condition is not even evaluated; when products were found, the driver
re-navigates exactly when the line-569 condition holds. -/
def renav_after (l : List String) (found : List Bool) : List Bool :=
  (l.zip found).map fun p => p.2 && renav_decision l p.1

/-- A four-corner bounding polygon as produced by the OCR engine; the
source indexes corners 0 and 2 (the diagonal pair). -/
structure Poly where
  p0 : ℚ × ℚ
  p1 : ℚ × ℚ
  p2 : ℚ × ℚ
  p3 : ℚ × ℚ
  deriving DecidableEq

/-- One result object of the OCR engine, with its parallel `rec_texts`,
`rec_scores` and `rec_polys` lists (lines 146-149). -/
structure OcrResult where
  rec_texts : List String
  rec_scores : List ℚ
  rec_polys : List Poly

/-- Python's `int((x + y) / 2)`: truncation toward zero of the average
of two rationals, computed on the single fraction
`(x.num * y.den + y.num * x.den) / (2 * x.den * y.den)` representing
`(x + y) / 2` (`Int.tdiv` truncates toward zero, and truncation depends
only on the value of the fraction). -/
def avgTrunc (x y : ℚ) : ℤ :=
  (x.num * (y.den : ℤ) + y.num * (x.den : ℤ)).tdiv (2 * ((x.den : ℤ) * (y.den : ℤ)))

/-- Center of a bounding polygon (lines 155-158): the coordinate-wise
average of corners 0 and 2, truncated to integers by `int(...)`. -/
def polyCenter (p : Poly) : ℤ × ℤ :=
  (avgTrunc p.p0.1 p.p2.1, avgTrunc p.p0.2 p.p2.2)

/-- The `zip(texts, scores, polys)` of line 151: detections of one OCR
result object in production order, truncated to the shortest list. -/
def detTriples (r : OcrResult) : List (String × ℚ × Poly) :=
  r.rec_texts.zip (r.rec_scores.zip r.rec_polys)

/-- The qualification test of line 152:
`target_text.lower() in text.lower() and score > 0.5`. -/
def qualifies (target : String) (d : String × ℚ × Poly) : Bool :=
  pyIn (pyLower target) (pyLower d.1) && decide ((mkRat 1 2 : ℚ) < d.2.1)

/-- Embedding of `OzonAutomation.find_text_with_ocr` (lines 129-160):
scan the result objects in order and, inside each, the zipped detections
in order; return the truncated center of the first detection whose text
contains the target case-insensitively with confidence above one half;
`none` when no detection qualifies. -/
def find_text_with_ocr (results : List OcrResult) (target : String) :
    Option (ℤ × ℤ) :=
  results.findSome? fun r =>
    (detTriples r).findSome? fun d =>
      if qualifies target d then some (polyCenter d.2.2) else none

/-- Text locator written from the spec's words, for comparison with
`find_text_with_ocr`: flatten all detections in production order, find
the first qualifying one, and return the center of its polygon. -/
def locate_spec (results : List OcrResult) (target : String) :
    Option (ℤ × ℤ) :=
  (((results.map detTriples).flatten).find? (qualifies target)).map
    fun d => polyCenter d.2.2

theorem mem_parse_products {cards : List Card} {p : Product}
    (h : p ∈ parse_products cards) :
    ∃ i c, i < min cards.length MAX_PRODUCTS_TO_CHECK ∧ cards[i]? = some c ∧
      parse_card i c = some p := by
  rw [parse_products] at h
  rcases List.mem_filterMap.mp h with ⟨i, hi, hf⟩
  rcases hc : cards[i]? with _ | c
  · rw [hc] at hf; cases hf
  · rw [hc] at hf
    exact ⟨i, c, List.mem_range.mp hi, hc, hf⟩

theorem parse_card_eq_some {i : Nat} {c : Card} {p : Product}
    (h : parse_card i c = some p) :
    ∃ f, c.read_fields = .ok f ∧ card_price f < (⊤ : WithTop ℚ) ∧
      p.price = card_price f ∧
      p.name = (if card_name f = "" then "Товар " ++ toString (i + 1)
                else card_name f) := by
  rw [parse_card] at h
  rcases hr : c.read_fields with e | f
  · rw [hr] at h; cases h
  · rw [hr] at h
    simp only at h
    split at h
    · next hp =>
        injection h with h2
        subst h2
        exact ⟨f, rfl, hp, rfl, rfl⟩
    · cases h

/-- C6: every product of one extraction pass has a finite price (the
sentinel never reaches the returned list), and the pass returns at most
`MAX_PRODUCTS_TO_CHECK` (= 5) products. -/
theorem C6_extraction_invariant (cards : List Card) :
    (parse_products cards).length ≤ MAX_PRODUCTS_TO_CHECK ∧
    ∀ p ∈ parse_products cards, p.price < (⊤ : WithTop ℚ) := by
  constructor
  · calc (parse_products cards).length
        ≤ (List.range (min cards.length MAX_PRODUCTS_TO_CHECK)).length :=
          List.length_filterMap_le _ _
      _ = min cards.length MAX_PRODUCTS_TO_CHECK := List.length_range _
      _ ≤ MAX_PRODUCTS_TO_CHECK := Nat.min_le_right _ _
  · intro p hp
    rcases mem_parse_products hp with ⟨i, c, hi, hc, hpc⟩
    rcases parse_card_eq_some hpc with ⟨f, _, hfin, hprice, _⟩
    rw [hprice]; exact hfin

/-- Fields of a well-behaved demonstration card. -/
def goodFields : FieldData :=
  { product_link := some { span_text := some "Молоко", href := some "" }
    price_text := some "50 ₽"
    button_text := some "Завтра" }

/-- A demonstration card whose extraction succeeds and whose first
button click succeeds. -/
def goodCard : Card :=
  { read_fields := .ok goodFields
    first_button := .ok true
    btnZavtra := .ok false
    btnSegodnya := .ok false
    btnVKorzinu := .ok false
    btnDobavit := .ok false
    open_card := .ok ()
    page_cart_button := .ok false }

/-- The product that one extraction pass builds from `goodCard`. -/
def goodProd : Product :=
  { name := "Молоко"
    price := ((50 : ℚ) : WithTop ℚ)
    delivery := "завтра"
    card_element := goodCard }

theorem C6_witness : goodProd.price < (⊤ : WithTop ℚ) :=
  (C6_extraction_invariant [goodCard]).2 goodProd (by decide)

theorem stripTake80_length (s : String) : (stripTake80 s).length ≤ 80 := by
  rw [stripTake80]
  have h : ∀ l : List Char, (l.asString).length = l.length := fun l => rfl
  rw [h, List.length_take]
  exact Nat.min_le_left _ _

theorem card_name_length (f : FieldData) : (card_name f).length ≤ 80 := by
  rw [card_name]
  rcases f.product_link with _ | link
  · exact Nat.zero_le _
  · exact stripTake80_length _

theorem placeholder_props {i : Nat} (h : i < MAX_PRODUCTS_TO_CHECK) :
    ("Товар " ++ toString (i + 1) : String) ≠ "" ∧
    ("Товар " ++ toString (i + 1) : String).length ≤ 80 := by
  have h5 : i < 5 := h
  interval_cases i <;> exact ⟨by decide, by decide⟩

/-- C10: every product of one extraction pass has a non-empty name of at
most 80 characters; in particular the positional placeholder is used
when no name could be extracted. -/
theorem C10_names (cards : List Card) :
    ∀ p ∈ parse_products cards, p.name ≠ "" ∧ p.name.length ≤ 80 := by
  intro p hp
  rcases mem_parse_products hp with ⟨i, c, hi, hc, hpc⟩
  rcases parse_card_eq_some hpc with ⟨f, _, _, _, hname⟩
  have hi5 : i < MAX_PRODUCTS_TO_CHECK := lt_of_lt_of_le hi (Nat.min_le_right _ _)
  rw [hname]
  by_cases he : card_name f = ""
  · rw [if_pos he]
    exact placeholder_props hi5
  · rw [if_neg he]
    exact ⟨he, card_name_length f⟩

theorem C10_witness : goodProd.name ≠ "" ∧ goodProd.name.length ≤ 80 :=
  C10_names [goodCard] goodProd (by decide)

/-- The five-card result set of the spec's extraction test: the third
card throws during field read, the other four parse with finite
prices. -/
def exCards : List Card :=
  [ { goodCard with read_fields := .ok { goodFields with
        product_link := some { span_text := some "A1", href := some "" }
        price_text := some "10 ₽" } }
  , { goodCard with read_fields := .ok { goodFields with
        product_link := some { span_text := some "A2", href := some "" }
        price_text := some "20 ₽" } }
  , { goodCard with read_fields := .error () }
  , { goodCard with read_fields := .ok { goodFields with
        product_link := some { span_text := some "A4", href := some "" }
        price_text := some "40 ₽" } }
  , { goodCard with read_fields := .ok { goodFields with
        product_link := some { span_text := some "A5", href := some "" }
        price_text := some "50 ₽" } } ]

/-- C7: an exception while reading one element's fields skips only that
element: any element whose own parse succeeds appears in the returned
list regardless of the other elements, and on the spec's five-element
example with element 3 throwing the pass returns exactly the four
products of the other elements, including those after the failure. -/
theorem C7_partial_failure :
    (∀ (cards : List Card) (j : Nat) (c : Card) (p : Product),
        cards[j]? = some c → j < MAX_PRODUCTS_TO_CHECK →
        parse_card j c = some p → p ∈ parse_products cards) ∧
    (parse_products exCards).map Product.name = ["A1", "A2", "A4", "A5"] ∧
    (parse_products exCards).length = 4 := by
  refine ⟨?_, by decide, by decide⟩
  intro cards j c p hc hj hp
  rw [parse_products]
  apply List.mem_filterMap.mpr
  refine ⟨j, List.mem_range.mpr ?_, ?_⟩
  · rcases List.getElem?_eq_some.mp hc with ⟨hlen, _⟩
    exact Nat.lt_min.mpr ⟨hlen, hj⟩
  · rw [hc]
    exact hp

theorem C7_witness : goodProd ∈ parse_products [goodCard] :=
  C7_partial_failure.1 [goodCard] 0 goodCard goodProd (by decide) (by decide)
    (by decide)

/-- A product is the first minimum of a list: the list splits around it
so that everything before it is strictly more expensive and everything
after it at least as expensive. -/
def IsFirstMin (p : Product) (l : List Product) : Prop :=
  ∃ l1 l2, l = l1 ++ p :: l2 ∧ (∀ q ∈ l1, p.price < q.price) ∧
    ∀ q ∈ l2, p.price ≤ q.price

theorem isFirstMin_le {p : Product} {l : List Product} (h : IsFirstMin p l) :
    ∀ q ∈ l, p.price ≤ q.price := by
  rcases h with ⟨l1, l2, rfl, h1, h2⟩
  intro q hq
  rcases List.mem_append.mp hq with hq | hq
  · exact le_of_lt (h1 q hq)
  · rcases List.mem_cons.mp hq with rfl | hq
    · exact le_refl _
    · exact h2 q hq

theorem foldl_min_isFirstMin (t : List Product) (p : Product) :
    IsFirstMin (t.foldl (fun best q => if q.price < best.price then q else best) p)
      (p :: t) := by
  induction t generalizing p with
  | nil => exact ⟨[], [], rfl, by simp, by simp⟩
  | cons q t' ih =>
    rw [List.foldl_cons]
    by_cases hq : q.price < p.price
    · rw [if_pos hq]
      rcases hm : ih q with ⟨l1, l2, heq, h1, h2⟩
      refine ⟨p :: l1, l2, by rw [List.cons_append, ← heq], ?_, h2⟩
      intro r hr
      rcases List.mem_cons.mp hr with rfl | hr
      · have hle := isFirstMin_le (ih q) q (List.mem_cons_self q t')
        exact lt_of_le_of_lt hle hq
      · exact h1 r hr
    · rw [if_neg hq]
      have hpq : p.price ≤ q.price := le_of_not_lt hq
      rcases ih p with ⟨l1, l2, heq, h1, h2⟩
      cases l1 with
      | nil =>
        rw [List.nil_append] at heq
        injection heq with hm ht
        refine ⟨[], q :: l2, ?_, by simp, ?_⟩
        · rw [List.nil_append, ← hm, ht]
        · intro r hr
          rcases List.mem_cons.mp hr with rfl | hr
          · rw [← hm]; exact hpq
          · exact h2 r hr
      | cons a l1' =>
        rw [List.cons_append] at heq
        injection heq with hpa ht
        have hma := h1 a (List.mem_cons_self _ _)
        have hmp : (List.foldl (fun best q => if q.price < best.price then q else best)
            p t').price < p.price := by
          nth_rewrite 2 [hpa]
          exact hma
        refine ⟨p :: q :: l1', l2, ?_, ?_, h2⟩
        · rw [List.cons_append, List.cons_append, ← ht]
        · intro r hr
          rcases List.mem_cons.mp hr with rfl | hr
          · exact hmp
          · rcases List.mem_cons.mp hr with rfl | hr
            · exact lt_of_lt_of_le hmp hpq
            · exact h1 r (List.mem_cons_of_mem a hr)

theorem find_cheapest_isFirstMin {l : List Product} {p : Product}
    (h : find_cheapest l = some p) : IsFirstMin p l := by
  cases l with
  | nil => cases h
  | cons a t =>
    rw [find_cheapest] at h
    injection h with h
    rw [← h]
    exact foldl_min_isFirstMin t a

theorem selection_pool_ne_nil {ps : List Product} (h : ps ≠ []) :
    selection_pool ps ≠ [] := by
  rw [selection_pool]
  split
  · exact h
  · next hfe =>
      intro hnil
      exact hfe (by rw [hnil]; rfl)

/-- A keyword-matching demonstration product priced 100. -/
def prodKw : Product :=
  { name := "X"
    price := ((100 : ℚ) : WithTop ℚ)
    delivery := "завтра"
    card_element := goodCard }

/-- A cheaper demonstration product with no delivery keyword, priced
50. -/
def prodCheap : Product :=
  { name := "Y"
    price := ((50 : ℚ) : WithTop ℚ)
    delivery := ""
    card_element := goodCard }

/-- C3: selection filters by delivery keyword, falls back to the full
list when nothing matches, returns the first-encountered candidate of
minimum price from the resulting pool, and returns none exactly on the
empty candidate list; in particular the keyword-matching 100-priced
candidate beats the cheaper non-matching 50-priced one. -/
theorem C3_selection :
    (∀ ps : List Product, select ps = none ↔ ps = []) ∧
    (∀ (ps : List Product) (p : Product), select ps = some p →
        IsFirstMin p (selection_pool ps)) ∧
    select [prodKw, prodCheap] = some prodKw := by
  refine ⟨fun ps => ⟨fun h => ?_, fun h => by rw [h]; rfl⟩,
    fun ps p h => find_cheapest_isFirstMin h, by decide⟩
  by_contra hne
  rcases hp : selection_pool ps with _ | ⟨a, t⟩
  · exact selection_pool_ne_nil hne hp
  · rw [select, hp, find_cheapest] at h
    cases h

theorem C3_witness : IsFirstMin prodKw (selection_pool [prodKw, prodCheap]) :=
  C3_selection.2.1 [prodKw, prodCheap] prodKw (by decide)

/-- A card whose first-button strategy throws while its first labelled
lookup (`Завтра`) would click successfully. -/
def cardThrow1 : Card :=
  { read_fields := .ok goodFields
    first_button := .error ()
    btnZavtra := .ok true
    btnSegodnya := .ok false
    btnVKorzinu := .ok false
    btnDobavit := .ok false
    open_card := .ok ()
    page_cart_button := .ok false }

/-- The same card with the first-button strategy merely finding nothing
instead of throwing. -/
def cardMiss1 : Card :=
  { cardThrow1 with first_button := .ok false }

/-- C1 counterexample: the claim says an exception in strategy one is
treated like that strategy merely failing, so the labelled-button
strategy which would succeed should still run and commit should return
true; but on `cardThrow1` (identical to `cardMiss1` except that strategy
one throws instead of finding nothing) commit returns false while on
`cardMiss1` it returns true. -/
theorem C1_counterexample :
    cardThrow1.btnZavtra = .ok true ∧
    add_to_cart cardMiss1 = true ∧
    add_to_cart cardThrow1 = false :=
  ⟨rfl, rfl, rfl⟩

/-- C1 amended: the whole strategy cascade sits inside one `try`, so any
exception makes commit return false immediately without attempting the
remaining strategies; commit returns true at the first strategy whose
click succeeds and false when every strategy reports no clickable
control or any exception occurs. -/
theorem C1_commit_strategies :
    (∀ c : Card, c.first_button = .error () → add_to_cart c = false) ∧
    (∀ c : Card, c.first_button = .ok true → add_to_cart c = true) ∧
    (∀ c : Card, c.first_button = .ok false →
        try_labeled (labeled_attempts c) = .error () → add_to_cart c = false) ∧
    (∀ c : Card, c.first_button = .ok false →
        try_labeled (labeled_attempts c) = .ok true → add_to_cart c = true) ∧
    (∀ c : Card, c.first_button = .ok false →
        try_labeled (labeled_attempts c) = .ok false → c.open_card = .error () →
        add_to_cart c = false) ∧
    (∀ c : Card, c.first_button = .ok false →
        try_labeled (labeled_attempts c) = .ok false → c.open_card = .ok () →
        add_to_cart c = decide (c.page_cart_button = .ok true)) := by
  refine ⟨fun c h1 => ?_, fun c h1 => ?_, fun c h1 h2 => ?_, fun c h1 h2 => ?_,
    fun c h1 h2 h3 => ?_, fun c h1 h2 h3 => ?_⟩
  · rw [add_to_cart, commit_body, h1]
  · rw [add_to_cart, commit_body, h1]
  · rw [add_to_cart, commit_body, h1, h2]
  · rw [add_to_cart, commit_body, h1, h2]
  · rw [add_to_cart, commit_body, h1, h2, h3]
  · rw [add_to_cart, commit_body, h1, h2, h3]
    rcases h4 : c.page_cart_button with e | b
    · cases e; rfl
    · cases b <;> rfl

theorem C1_witness : add_to_cart cardThrow1 = false :=
  C1_commit_strategies.1 cardThrow1 rfl

/-- A card on which every commit strategy finds nothing, so commit
returns false without an exception. -/
def commitFailCard : Card :=
  { goodCard with first_button := .ok false }

/-- Item environment whose cycle completes and adds to the cart. -/
def envGood : ItemEnv :=
  { search := .ok (), cards := .ok [goodCard] }

/-- Item environment whose search step throws. -/
def envThrow : ItemEnv :=
  { search := .error (), cards := .ok [goodCard] }

/-- Item environment whose commit fails by returning false. -/
def envCommitFail : ItemEnv :=
  { search := .ok (), cards := .ok [commitFailCard] }

/-- C2 counterexample: the claim says an exception during item 1's cycle
is caught so that item 2 is still processed; but with item 1's search
throwing, the run produces an error and no outcome at all is recorded
for item 2, even though item 2's cycle on its own would complete with an
added product. -/
theorem C2_counterexample :
    run_items [envThrow, envGood] = .error () ∧
    process_item envGood = .ok .added :=
  ⟨rfl, rfl⟩

/-- C2 amended: exceptions raised inside an item's cycle are not caught
per item — they abort the loop and propagate, so subsequent items are
not processed; only non-exceptional failures (such as commit returning
false) let the run continue, and in particular a commit that fails by
returning false on item 1 does not prevent item 2 from being processed
to completion. -/
theorem C2_run_loop :
    (∀ (e : ItemEnv) (rest : List ItemEnv), process_item e = .error () →
        run_items (e :: rest) = .error ()) ∧
    (∀ (e : ItemEnv) (rest : List ItemEnv) (o : ItemOutcome),
        process_item e = .ok o →
        run_items (e :: rest) = (run_items rest).map (o :: ·)) ∧
    run_items [envCommitFail, envGood] = .ok [.commitFailed, .added] := by
  refine ⟨fun e rest h => ?_, fun e rest o h => ?_, rfl⟩
  · rw [run_items, h]
  · rw [run_items, h]
    rcases h2 : run_items rest with f | os
    · rfl
    · rfl

theorem C2_witness : run_items [envThrow] = .error () :=
  C2_run_loop.1 envThrow [] rfl

/-- C9 counterexample: the claim (re-navigate after every item except
the last, never after the last) predicts the navigation sequence
`[true, false]` for any two-item run.  The code deviates twice: on the
duplicate list `["a", "a"]` with products found for both items it
re-navigates after the last item too (`list.index` finds the first
occurrence), and on `["a", "b"]` where item 1 yields no products the
`continue` skips re-navigation after that non-last item. -/
theorem C9_counterexample :
    renav_after ["a", "a"] [true, true] = [true, true] ∧
    renav_after ["a", "b"] [false, true] = [false, false] ∧
    ([true, true] : List Bool) ≠ [true, false] ∧
    ([false, false] : List Bool) ≠ [true, false] :=
  ⟨by decide, by decide, by decide, by decide⟩

/-- C9 amended: in an exception-free run the driver re-navigates after
an item exactly when products were found for it and the first occurrence
of its value in the shopping list is not at the last position; hence for
a duplicate-free list in which every item yields products it
re-navigates after each item except the last and not after the last. -/
theorem C9_renavigation :
    (∀ (l : List String) (found : List Bool) (k : Nat)
        (h2 : k < l.length) (h3 : k < found.length),
        (renav_after l found)[k]? =
          some (found.get ⟨k, h3⟩ && renav_decision l (l.get ⟨k, h2⟩))) ∧
    (∀ (l : List String) (found : List Bool), l.Nodup →
        found.length = l.length → (∀ b ∈ found, b = true) →
        renav_after l found =
          (List.range l.length).map fun k => decide (k < l.length - 1)) := by
  constructor
  · intro l found k h2 h3
    have hk : k < (l.zip found).length := by
      rw [List.length_zip]
      exact Nat.lt_min.mpr ⟨h2, h3⟩
    rw [renav_after, List.getElem?_map, List.getElem?_eq_getElem hk]
    rw [List.getElem_zip]
    simp [List.get_eq_getElem]
  · intro l found hn hlen hall
    apply List.ext_getElem
    · simp [renav_after, List.length_zip, hlen]
    · intro i h1 h2
      have hil : i < l.length := by
        rw [renav_after, List.length_map, List.length_zip, hlen] at h1
        exact lt_of_lt_of_le h1 (Nat.min_le_right _ _)
      have hif : i < found.length := by rw [hlen]; exact hil
      simp only [renav_after, List.getElem_map, List.getElem_zip,
        List.getElem_range]
      have hfound : found[i] = true := hall _ (List.getElem_mem hif)
      rw [hfound, Bool.true_and, renav_decision]
      have hidx : l.indexOf l[i] = i := by
        have hg := List.get_indexOf hn ⟨i, hil⟩
        simpa using hg
      rw [hidx]

theorem C9_witness : renav_after ["a", "b"] [true, true] = [true, false] := by
  rw [C9_renavigation.2 ["a", "b"] [true, true] (by decide) (by decide)
    (by decide)]
  decide

theorem findSome?_guard_eq {α β : Type} (q : α → Bool) (g : α → β) (l : List α) :
    (l.findSome? fun d => if q d then some (g d) else none) = (l.find? q).map g := by
  induction l with
  | nil => rfl
  | cons a t ih =>
    rw [List.findSome?_cons, List.find?_cons]
    by_cases hq : q a
    · simp [hq]
    · simp [hq, ih]

theorem findSome?_flatten {α β : Type} (f : α → Option β) (ls : List (List α)) :
    (ls.flatten).findSome? f = ls.findSome? fun l => l.findSome? f := by
  induction ls with
  | nil => rfl
  | cons l ls ih =>
    rw [List.flatten_cons, List.findSome?_append, List.findSome?_cons]
    rcases h : l.findSome? f with _ | b
    · simp [Option.or, ih]
    · simp [Option.or]

/-- First polygon of the spec's text-locator example. -/
def poly1 : Poly :=
  { p0 := ((0 : ℚ), (0 : ℚ)), p1 := ((10 : ℚ), (0 : ℚ))
    p2 := ((10 : ℚ), (4 : ℚ)), p3 := ((0 : ℚ), (4 : ℚ)) }

/-- Second polygon of the spec's text-locator example. -/
def poly2 : Poly :=
  { p0 := ((20 : ℚ), (20 : ℚ)), p1 := ((30 : ℚ), (20 : ℚ))
    p2 := ((30 : ℚ), (24 : ℚ)), p3 := ((20 : ℚ), (24 : ℚ)) }

/-- The spec's detection example, with the later detection given the
higher confidence so that first-match-wins is visible: both texts
contain the target case-insensitively and both confidences exceed one
half. -/
def exOcr : OcrResult :=
  { rec_texts := ["ИСКАТЬ", "искать сейчас"]
    rec_scores := [mkRat 3 5, mkRat 9 10]
    rec_polys := [poly1, poly2] }

/-- C8: the text locator equals the spec-side locator that flattens all
detections in production order, takes the first whose text contains the
target case-insensitively with confidence strictly above one half, and
returns the truncated center of corners 0 and 2 of its polygon; on the
spec's example it returns the center of `poly1` even though the later
detection has the higher confidence. -/
theorem C8_text_locator :
    (∀ (results : List OcrResult) (target : String),
        find_text_with_ocr results target = locate_spec results target) ∧
    find_text_with_ocr [exOcr] "искать" = some (polyCenter poly1) ∧
    polyCenter poly1 = ((5 : ℤ), (2 : ℤ)) := by
  refine ⟨fun results target => ?_, by decide, by decide⟩
  rw [find_text_with_ocr, locate_spec, ← findSome?_guard_eq, findSome?_flatten,
    List.findSome?_map]
  rfl

end GetOzon
